import Mathlib

/-!
Verification development for the `befunge-rsm` repository: a Befunge-93
interpreter implemented in Rust declarative macros.  Numbers are signed
magnitude base 1 token lists `[[sign] [magnitude]]`; the interpreter state is
threaded through recursive macro expansions of `befunge_step!`.

This file gives a shallow embedding of the macros:
  * a sign is `[]` (empty), `[pos]` or `[neg]`; empty and `pos` are treated
    equivalently, and magnitudes are the number of `[]` token trees;
  * each `macro_rules!` arm becomes a branch of a Lean function, translated in
    the arm order of the source (arm order matters for overlapping patterns);
  * a macro invocation that no arm of the callee accepts, an expansion that
    mentions a metavariable its arm never bound, and a `compile_error!` all
    abort the whole expansion; the embedding returns `none` / `.stuck` there;
  * proc macros that talk to the interface process (`befunge-pm`) are modelled
    by an environment of externally supplied answers plus an event trace.

The macros `char_to_code!`, `code_to_char!` and `code_to_char_pretty!` live in
`befunge-dm/src/stringmode.rs`, which is declared by `lib.rs` but is not part
of the provided sources; the corresponding definitions below are modelled from
the spec and marked as such.
-/

namespace Befunge

/-- A sign token tree: `[]` (empty), `[pos]`, or `[neg]`.  The crate treats
`[]` and `[pos]` equivalently; `[[neg] []]` is documented as never allowed. -/
inductive Sgn where
  | emp : Sgn
  | pos : Sgn
  | neg : Sgn
deriving DecidableEq, Repr

/-- The predicate `posish s` is true when the sign matches the macro pattern `[$(pos)?]`,
i.e. the sign token tree is `[]` or `[pos]`. -/
def Sgn.posish : Sgn → Bool
  | .neg => false
  | _ => true

/-- The predicate `tok s` is true when the sign matches the non-optional macro
pattern `[$sgn:tt]`: an empty sign bracket `[]` holds no token tree, so only
`[pos]` and `[neg]` match. -/
def Sgn.tok : Sgn → Bool
  | .emp => false
  | _ => true

/-- A signed magnitude base 1 number `[[sign] [magnitude]]`; the magnitude is
the count of `[]` token trees. -/
structure SMNum where
  sgn : Sgn
  mag : Nat
deriving DecidableEq, Repr

/-- The integer value denoted by a signed magnitude base 1 number. -/
def SMNum.toInt (n : SMNum) : Int :=
  match n.sgn with
  | .neg => -(n.mag : Int)
  | _ => (n.mag : Int)

/-- The default operand `[[] []]` produced when an optional stack fragment of a
`befunge_step!` pattern is absent and the transcriber writes literal empty
brackets around the absent repetitions. -/
def zeroDefault : SMNum := ⟨.emp, 0⟩

/-- The stack pattern of the `/` and `%` instruction arms of `befunge_step!`:
the whole stack match is optional (an empty stack matches with both operands
defaulted), but a present top value — and, when there is one, the second value
— must carry a sign that the non-optional `[$stack0sgn:tt]` /
`[$stack1sgn:tt]` matchers accept.  A value with an empty sign bracket makes
the arm fail, so matching falls through to the UNKNOWN fallback. -/
def div_mod_stack_matches : List SMNum → Bool
  | [] => true
  | [s0] => s0.sgn.tok
  | s0 :: s1 :: _ => s0.sgn.tok && s1.sgn.tok

/-! ## arith.rs : signed magnitude base 1 arithmetic -/

/-- The ad-hoc `exec_sub` macro generated by the `a - b` arm of `arith_sub!`
for two non-negative magnitudes: its first arm matches when `a`'s magnitude
starts with `b`'s magnitude (so `b ≤ a`, difference `a - b`, sign `pos`),
otherwise the second arm yields sign `neg` and difference `b - a`. -/
def exec_sub (amag bmag : Nat) : SMNum :=
  if bmag ≤ amag then ⟨.pos, amag - bmag⟩ else ⟨.neg, bmag - amag⟩

/-- The ad-hoc `exec_sub` macro generated by the `(-a) - (-b)` arm of
`arith_sub!`: same comparison with the result signs flipped.  Note the first
arm also matches when the magnitudes are equal, producing `[[neg] []]`. -/
def exec_sub_negated (amag bmag : Nat) : SMNum :=
  if bmag ≤ amag then ⟨.neg, amag - bmag⟩ else ⟨.pos, bmag - amag⟩

/-- Subtraction `arith_sub!`, arm by arm: `a - 0`; `0 - b`; `0 - (-b)`; `a - b` (both
non-negative) via `exec_sub`; `a - (-b)` deferring to `arith_add!` with two
positive operands (which appends the magnitudes); `(-a) - b` deferring to
`arith_add!` with two negative operands; `(-a) - (-b)` via the flipped
`exec_sub`.  The deferred `arith_add!` calls are made with both magnitudes
nonzero, where `arith_add!` just appends magnitudes, which is inlined here. -/
def arith_sub (a b : SMNum) : SMNum :=
  if b.mag = 0 then a
  else if a.mag = 0 then
    match b.sgn with
    | .neg => ⟨.pos, b.mag⟩
    | _ => ⟨.neg, b.mag⟩
  else
    match a.sgn, b.sgn with
    | .neg, .neg => exec_sub_negated a.mag b.mag
    | .neg, _ => ⟨.neg, a.mag + b.mag⟩
    | _, .neg => ⟨.pos, a.mag + b.mag⟩
    | _, _ => exec_sub a.mag b.mag

/-- Addition `arith_add!`, arm by arm: `a + 0`; `0 + b`; both non-negative (append the
magnitudes, sign `pos`); `a + (-b)` deferring to `arith_sub!` on positive
operands; `(-a) + b` deferring to `arith_sub!` with the operands swapped; both
negative (append the magnitudes, sign `neg`).  The deferred `arith_sub!` calls
have both magnitudes nonzero and positive signs, which is `exec_sub`. -/
def arith_add (a b : SMNum) : SMNum :=
  if b.mag = 0 then a
  else if a.mag = 0 then b
  else
    match a.sgn, b.sgn with
    | .neg, .neg => ⟨.neg, a.mag + b.mag⟩
    | .neg, _ => exec_sub b.mag a.mag
    | _, .neg => exec_sub a.mag b.mag
    | _, _ => ⟨.pos, a.mag + b.mag⟩

/-- Multiplication `arith_mul!`: the first arm (both signs matching `$(pos)?`) and the second
arm (both signs `neg`) give sign `pos`; the catch-all third arm gives sign
`neg`.  The magnitude is always `b`'s magnitude repeated once per token tree of
`a`'s magnitude, flattened by the `@catch` arm.  No arm normalises the sign
when the resulting magnitude is empty. -/
def arith_mul (a b : SMNum) : SMNum :=
  if a.sgn.posish ∧ b.sgn.posish then ⟨.pos, a.mag * b.mag⟩
  else if a.sgn = .neg ∧ b.sgn = .neg then ⟨.pos, a.mag * b.mag⟩
  else ⟨.neg, a.mag * b.mag⟩

/-- The ad-hoc `arith_div_mod_exec` macro generated by `arith_div_mod!`:
repeatedly strip `b`'s magnitude from the front of the remaining magnitude,
counting one `[]` per strip into `div`; when the remainder is shorter than `b`,
it becomes `mod`.  The macro recursion is unbounded; here it is driven by a
structural fuel argument, always called with enough fuel (the starting
magnitude) to reach the base case whenever `b`'s magnitude is nonzero. -/
def arith_div_mod_exec (bmag : Nat) : Nat → Nat → Nat × Nat
  | 0, left => (0, left)
  | fuel + 1, left =>
    if 0 < bmag ∧ bmag ≤ left then
      let p := arith_div_mod_exec bmag fuel (left - bmag)
      (p.1 + 1, p.2)
    else
      (0, left)

/-- Division core `arith_div_mod!`: run `arith_div_mod_exec` on the whole magnitude of `a`.
Callers guarantee `b`'s magnitude is nonzero (`arith_div_mod!` raises
`compile_error!` on `b = []`), which also makes the fuel `amag` sufficient. -/
def arith_div_mod (amag bmag : Nat) : Nat × Nat :=
  arith_div_mod_exec bmag amag amag

/-- Result of `arith_div!` / `arith_mod!`: either a number, or a deferral to
the `befunge_pm::div_by_zero!` / `befunge_pm::mod_by_zero!` proc macro which
asks the interface process for the value. -/
inductive DivModRes where
  | val (n : SMNum) : DivModRes
  | byZero : DivModRes
deriving DecidableEq, Repr

/-- Division `arith_div!`, arm by arm: `0 / b = 0` (for every `b`, including `b = 0`);
`a / 0` deferring to `befunge_pm::div_by_zero!`; `a / 1` giving `a` itself;
`a / (-1)` and `(-a) / (-1)` negating; then the `|a| < |b|` check giving `0`,
else `arith_div_mod!` with the sign rules of the four `@catch` arms
(`pos/pos → pos`, `neg/pos → neg`, `pos/neg → neg`, `neg/neg → pos`). -/
def arith_div (a b : SMNum) : DivModRes :=
  if a.mag = 0 then .val ⟨.pos, 0⟩
  else if b.mag = 0 then .byZero
  else if b.sgn.posish ∧ b.mag = 1 then .val a
  else if b.sgn = .neg ∧ b.mag = 1 then
    match a.sgn with
    | .neg => .val ⟨.pos, a.mag⟩
    | _ => .val ⟨.neg, a.mag⟩
  else if a.mag < b.mag then .val ⟨.pos, 0⟩
  else
    .val ⟨if a.sgn.posish = b.sgn.posish then .pos else .neg,
      (arith_div_mod a.mag b.mag).1⟩

/-- Modulo `arith_mod!`, arm by arm: `a % 0` deferring to `befunge_pm::mod_by_zero!`;
otherwise the `arith_mod_lt_check` macro calls `arith_div_mod!` when `a`'s
magnitude starts with `b`'s magnitude (`|b| ≤ |a|`), keeping the sign token of
`a` unchanged on the remainder, and yields `a` itself when `|a| < |b|`. -/
def arith_mod (a b : SMNum) : DivModRes :=
  if b.mag = 0 then .byZero
  else if b.mag ≤ a.mag then .val ⟨a.sgn, (arith_div_mod a.mag b.mag).2⟩
  else .val a

/-- Conversion `befunge_pm::interface::isize_to_base1`: the externally supplied integer is
turned into `|n|` empty groups with sign `neg` exactly when `n` is negative. -/
def isize_to_base1 (n : Int) : SMNum :=
  if n < 0 then ⟨.neg, n.natAbs⟩ else ⟨.pos, n.natAbs⟩

/-! ## list.rs : token list helpers -/

/-- List helper `list_init_last!`: the init and last of a list; `compile_error!` (here
`none`) on an empty list. -/
def list_init_last {α : Type} : List α → Option (List α × α)
  | [] => none
  | [a] => some ([], a)
  | a :: b :: t =>
    match list_init_last (b :: t) with
    | some (init, last) => some (a :: init, last)
    | none => none

/-- List helper `list_split_at_length_of!`: split one list after as many elements as the
reference list has.  When the list to split runs out first, no arm of the
macro matches the recursive call (the `compile_error!` arm is keyed on a
`split:` field the recursion never produces), so the expansion is stuck: here
`none`.  Only the length of the reference list matters, so it is a `Nat`. -/
def list_split_at_length_of {α : Type} : Nat → List α → Option (List α × List α)
  | 0, r => some ([], r)
  | n + 1, rh :: rt =>
    match list_split_at_length_of n rt with
    | some (l, r) => some (rh :: l, r)
    | none => none
  | _ + 1, [] => none

/-! ## Program memory and interpreter state -/

/-- One cell of program memory: a character literal, or a signed magnitude
base 1 number previously written by `p` (the `befunge_step!` doc notes program
memory "may contain character literals or numeric values"). -/
inductive Cell where
  | ch (c : Char) : Cell
  | num (n : SMNum) : Cell
deriving DecidableEq, Repr

/-- A direction token `[up]`, `[down]`, `[left]`, `[right]`. -/
inductive Dir where
  | up : Dir
  | down : Dir
  | left : Dir
  | right : Dir
deriving DecidableEq, Repr

/-- The `cur: [pre: _, cur: _, pst: _]` row zipper of `progstate`. -/
structure RowZip where
  cpre : List Cell
  cell : Cell
  cpst : List Cell
deriving DecidableEq, Repr

/-- The `progstate: [pre: _, cur: _, pst: _]` zipper: rows above the current
row, the current row zipper, and rows below. -/
structure ProgZip where
  pre : List (List Cell)
  row : RowZip
  pst : List (List Cell)
deriving DecidableEq, Repr

/-- The flattened program memory, as reassembled by the `g`/`p` handlers:
`[$($pre)* [$($cpre)* $cur $($cpst)*] $($pst)*]`. -/
def ProgZip.rows (p : ProgZip) : List (List Cell) :=
  p.pre ++ (p.row.cpre ++ p.row.cell :: p.row.cpst) :: p.pst

/-- The full `befunge_step!` state: stack, direction, stringmode and bridge
flags, and the program memory zipper.  Debug flags only toggle emission of
`const` items and are not part of the model. -/
structure BefState where
  stack : List SMNum
  dir : Dir
  stringmode : Bool
  bridge : Bool
  prog : ProgZip
deriving DecidableEq, Repr

/-- A request sent to the interface process during one step (befunge-pm). -/
inductive Event where
  | divByZero : Event
  | modByZero : Event
  | printInteger (n : Int) : Event
  | printAscii (n : SMNum) : Event
  | getInteger : Event
  | getAscii : Event
  | randomDir : Event
deriving DecidableEq, Repr

/-- Externally supplied answers for the proc-macro exchanges a single step can
perform: the value resolving `a/0` or `a%0`, the `&`/`~` inputs, and the
direction chosen by `choose_random!` for `?`. -/
structure ExtEnv where
  divAns : Int
  modAns : Int
  intAns : Int
  asciiAns : Char
  rand : Dir
deriving DecidableEq, Repr

/-- Outcome of one `befunge_step!` expansion step:
  * `next s ev`: reached the next `@instr` state after `@move`, having issued
    the interface requests `ev`;
  * `halted stk`: the `@` arm, which ends the expansion normally;
  * `unknownInstr`: the `befunge_error! @unknowninstr` arm, carrying the
    offending cell, its row and column, the stack and the direction;
  * `abandoned`: the expansion ends silently with no continuation (the
    out-of-bounds `p` fallback expands to a diagnostic only);
  * `stuck`: the expansion errors: no macro arm matches the produced tokens,
    or an arm's transcriber mentions a metavariable it never bound. -/
inductive StepOut where
  | next (s : BefState) (ev : List Event) : StepOut
  | halted (stack : List SMNum) : StepOut
  | unknownInstr (instr : Cell) (row col : Nat) (stack : List SMNum) (dir : Dir) : StepOut
  | abandoned : StepOut
  | stuck : StepOut
deriving DecidableEq, Repr

/-! ## step.rs MOVEMENT : the `@move` arms -/

/-- The `@move` arms of `befunge_step!`, in source order per direction.
  * right: shift within the row; at `pst: []` wrap to column 0 of the row;
  * left: `list_init_last!` on the row prefix; at `pre: []` the wrap arm
    invokes `list_init_last!` with a stray comma after `@init`, which no arm
    of that macro accepts, so the expansion is stuck;
  * down: split the next row at the length of `cpre` to keep the column; at
    `pst: []` wrap to the first row of `pre`;
  * up: `list_init_last!` on the rows above; at `pre: []` wrap to the last
    row of `pst` (that arm is written without the stray comma). -/
def befunge_move (s : BefState) : Option BefState :=
  match s.prog with
  | ⟨pre, ⟨cpre, cur, cpst⟩, pst⟩ =>
    match s.dir with
    | .right =>
      match cpst with
      | c :: rest => some { s with prog := ⟨pre, ⟨cpre ++ [cur], c, rest⟩, pst⟩ }
      | [] =>
        match cpre with
        | h :: t => some { s with prog := ⟨pre, ⟨[], h, t ++ [cur]⟩, pst⟩ }
        | [] => none
    | .left =>
      match cpre with
      | _ :: _ =>
        match list_init_last cpre with
        | some (init, last) =>
          some { s with prog := ⟨pre, ⟨init, last, cur :: cpst⟩, pst⟩ }
        | none => none
      | [] => none
    | .down =>
      match pst with
      | rh :: rt =>
        match list_split_at_length_of cpre.length rh with
        | some (l, c :: r) =>
          some { s with prog := ⟨pre ++ [cpre ++ cur :: cpst], ⟨l, c, r⟩, rt⟩ }
        | _ => none
      | [] =>
        match pre with
        | preh :: pret =>
          match list_split_at_length_of cpre.length preh with
          | some (l, c :: r) =>
            some { s with prog := ⟨[], ⟨l, c, r⟩, pret ++ [cpre ++ cur :: cpst]⟩ }
          | _ => none
        | [] => none
    | .up =>
      match pre with
      | _ :: _ =>
        match list_init_last pre with
        | some (init, lastrow) =>
          match list_split_at_length_of cpre.length lastrow with
          | some (l, c :: r) =>
            some { s with prog := ⟨init, ⟨l, c, r⟩, (cpre ++ cur :: cpst) :: pst⟩ }
          | _ => none
        | none => none
      | [] =>
        match list_init_last pst with
        | some (init, lastrow) =>
          match list_split_at_length_of cpre.length lastrow with
          | some (l, c :: r) =>
            some { s with prog := ⟨(cpre ++ cur :: cpst) :: init, ⟨l, c, r⟩, []⟩ }
          | _ => none
        | none => none

/-- Transcription that ends every instruction arm: hand the updated state to
`@move`; a `@move` with no matching arm aborts the expansion. -/
def moveOut (s : BefState) (ev : List Event) : StepOut :=
  match befunge_move s with
  | some s' => .next s' ev
  | none => .stuck

/-! ## stringmode.rs (missing from the provided sources) -/

/-- Modelled from the spec: `char_to_code!` lives in befunge-dm's
`stringmode.rs`, which `lib.rs` declares but is not among the provided
sources.  The spec says characters are pushed as their codes and cells are
integer codes, so a character maps to its non-negative code. -/
def char_to_code (c : Char) : SMNum := ⟨.pos, c.toNat⟩

/-- The three callback shapes of `code_to_char_pretty!`, as consumed by the
`@catch @put @code_to_char_pretty` arms of `befunge_step!`: `char: [-$fst]`,
`char: [$fst]`, and `char: [$fst, $snd]` (a value together with its character
form, as used by the stack printers in debug.rs and error.rs). -/
inductive Pretty where
  | negative : Pretty
  | plain : Pretty
  | withChar (c : Char) : Pretty
deriving DecidableEq, Repr

/-- Modelled from the spec: `code_to_char_pretty!` also lives in the missing
`stringmode.rs`.  The spec collapses cells to integer codes 0–255 with
"character" a display concern, so a non-negative number in byte range gains
its character form, a negative number keeps a negative literal form, and
anything else stays a bare number. -/
def code_to_char_pretty (n : SMNum) : Pretty :=
  if n.sgn = .neg then .negative
  else if n.mag < 256 then .withChar (Char.ofNat n.mag)
  else .plain

/-- The quote character of stringmode, named to keep the character literal out
of the instruction table below. -/
def quoteChar : Char := Char.ofNat 34

/-- The greater-than instruction character (code 96). -/
def backquoteChar : Char := Char.ofNat 96

/-! ## step.rs : `g` and `p` coordinate checks -/

/-- The ad-hoc `befunge_step_get_coord_check` macro of the `g` arm: its first
arm matches when the `x` magnitude is a prefix of a 79-element list and the
`y` magnitude a prefix of a 24-element list (`x ≤ 79 ∧ y ≤ 24`); it then
splits the reassembled program at `y`, splits that row at `x`, and pushes the
cell found (a number directly, a character via `char_to_code!`).  The
out-of-bounds fallback arm transcribes `progstate: $progstate`, a metavariable
the `g` arm never bound, so that expansion is stuck. -/
def befunge_step_get_coord_check (s : BefState) (y x : SMNum)
    (rest : List SMNum) : StepOut :=
  if x.mag ≤ 79 ∧ y.mag ≤ 24 then
    match list_split_at_length_of y.mag s.prog.rows with
    | some (_, rh :: _) =>
      match list_split_at_length_of x.mag rh with
      | some (_, c :: _) =>
        match c with
        | .num n => moveOut { s with stack := n :: rest } []
        | .ch ch => moveOut { s with stack := char_to_code ch :: rest } []
      | _ => .stuck
    | _ => .stuck
  else .stuck

/-- The ad-hoc `befunge_step_put_coord_check` macro of the `p` arms, with the
same `x ≤ 79 ∧ y ≤ 24` bounds check.  In bounds, the
`@splitrow @place` / `@splitcol @place` / `@splitrow @newps` / `@newps` chain
splits the program at `y`, the row at `x`, replaces the cell, and re-splits
the rebuilt program at the lengths of `pre` and `cpre` to restore the zipper
before moving on.  Out of bounds, the fallback arm expands to a diagnostic
only — there is no continuation, so the program expansion simply ends. -/
def befunge_step_put_coord_check (s : BefState) (y x : SMNum) (newcell : Cell)
    (rest : List SMNum) : StepOut :=
  if x.mag ≤ 79 ∧ y.mag ≤ 24 then
    match list_split_at_length_of y.mag s.prog.rows with
    | some (l, rh :: rt) =>
      match list_split_at_length_of x.mag rh with
      | some (pcpre, _ :: pcpst) =>
        let newrows := l ++ (pcpre ++ newcell :: pcpst) :: rt
        match list_split_at_length_of s.prog.pre.length newrows with
        | some (npre, ncur :: npst) =>
          match list_split_at_length_of s.prog.row.cpre.length ncur with
          | some (ncpre, nc :: ncpst) =>
            moveOut { s with stack := rest, prog := ⟨npre, ⟨ncpre, nc, ncpst⟩, npst⟩ } []
          | _ => .stuck
        | _ => .stuck
      | _ => .stuck
    | _ => .stuck
  else .abandoned

/-! ## step.rs : the `@instr` arms -/

/-- Popping two operands the way the nested optional fragments of the
arithmetic/swap arms do: absent fragments transcribe as the `[[] []]`
default, which is not pushed back. -/
def pop2 : List SMNum → SMNum × SMNum × List SMNum
  | [] => (zeroDefault, zeroDefault, [])
  | [a] => (a, zeroDefault, [])
  | a :: b :: r => (a, b, r)

/-- One step of `befunge_step!`, from an `@instr` state to the outcome of the
following `@move`, with the `@instr` arms translated in source order:
stringmode handling first (quote; the broken numeric-cell arm, whose
transcriber pushes a bare `[]`, mentions the never-bound `$stringmode` and
emits a stray `:tt`, aborting the expansion; characters via
`char_to_code!`), then the bridge arm, then the instruction table keyed on
the current cell, and the `befunge_error! @unknowninstr` fallback.  Unlike
the `+`/`-`/`*` arms, whose operand signs are the optional `$($sgn:tt)?`, the
`/` and `%` arms (and the nonzero arm of `!`) bind each present operand's sign
with a non-optional `:tt` matcher, so a value with an empty sign bracket makes
those arms fail and the state falls through to the UNKNOWN fallback. -/
def befunge_step (env : ExtEnv) (s : BefState) : StepOut :=
  match s.stringmode, s.bridge with
  | true, false =>
    match s.prog.row.cell with
    | .ch c =>
      if c = quoteChar then moveOut { s with stringmode := false } []
      else moveOut { s with stack := char_to_code c :: s.stack } []
    | .num _ => .stuck
  | false, true => moveOut { s with bridge := false } []
  | true, true => .stuck
  | false, false =>
    match s.prog.row.cell with
    | .num n =>
      .unknownInstr (.num n) s.prog.pre.length s.prog.row.cpre.length s.stack s.dir
    | .ch c =>
      if c = ' ' then moveOut s []
      else if c = '+' then
        let (s0, s1, r) := pop2 s.stack
        moveOut { s with stack := arith_add s0 s1 :: r } []
      else if c = '-' then
        let (s0, s1, r) := pop2 s.stack
        moveOut { s with stack := arith_sub s1 s0 :: r } []
      else if c = '*' then
        let (s0, s1, r) := pop2 s.stack
        moveOut { s with stack := arith_mul s0 s1 :: r } []
      else if c = '/' then
        if div_mod_stack_matches s.stack then
          let (s0, s1, r) := pop2 s.stack
          match arith_div s1 s0 with
          | .val n => moveOut { s with stack := n :: r } []
          | .byZero => moveOut { s with stack := isize_to_base1 env.divAns :: r } [.divByZero]
        else
          .unknownInstr (.ch c) s.prog.pre.length s.prog.row.cpre.length s.stack s.dir
      else if c = '%' then
        if div_mod_stack_matches s.stack then
          let (s0, s1, r) := pop2 s.stack
          match arith_mod s1 s0 with
          | .val n => moveOut { s with stack := n :: r } []
          | .byZero => moveOut { s with stack := isize_to_base1 env.modAns :: r } [.modByZero]
        else
          .unknownInstr (.ch c) s.prog.pre.length s.prog.row.cpre.length s.stack s.dir
      else if c = '!' then
        match s.stack with
        | [] => moveOut { s with stack := [⟨.pos, 1⟩] } []
        | t :: r =>
          if t.mag = 0 then moveOut { s with stack := ⟨.pos, 1⟩ :: r } []
          else if t.sgn.tok then moveOut { s with stack := ⟨.pos, 0⟩ :: r } []
          else
            .unknownInstr (.ch c) s.prog.pre.length s.prog.row.cpre.length s.stack s.dir
      else if c = backquoteChar then
        match s.stack with
        | [] => moveOut { s with stack := [⟨.pos, 0⟩] } []
        | [t] =>
          if t.mag = 0 then moveOut { s with stack := [⟨.pos, 0⟩] } []
          else if t.sgn.posish then moveOut { s with stack := [⟨.pos, 0⟩] } []
          else moveOut { s with stack := [⟨.pos, 1⟩] } []
        | t :: u :: r =>
          if t.sgn.posish ∧ u.sgn = .neg then
            moveOut { s with stack := ⟨.pos, 0⟩ :: r } []
          else if t.sgn = .neg ∧ u.sgn.posish then
            moveOut { s with stack := ⟨.pos, 1⟩ :: r } []
          else if t.sgn.posish ∧ u.sgn.posish then
            if t.mag < u.mag then moveOut { s with stack := ⟨.pos, 1⟩ :: r } []
            else moveOut { s with stack := ⟨.pos, 0⟩ :: r } []
          else
            if t.mag < u.mag then moveOut { s with stack := ⟨.pos, 0⟩ :: r } []
            else moveOut { s with stack := ⟨.pos, 1⟩ :: r } []
      else if c = '>' then moveOut { s with dir := .right } []
      else if c = '<' then moveOut { s with dir := .left } []
      else if c = '^' then moveOut { s with dir := .up } []
      else if c = 'v' then moveOut { s with dir := .down } []
      else if c = '?' then moveOut { s with dir := env.rand } [.randomDir]
      else if c = '_' then
        match s.stack with
        | [] => moveOut { s with dir := .right } []
        | t :: r =>
          if t.mag = 0 then moveOut { s with stack := r, dir := .right } []
          else moveOut { s with stack := r, dir := .left } []
      else if c = '|' then
        match s.stack with
        | [] => moveOut { s with dir := .down } []
        | t :: r =>
          if t.mag = 0 then moveOut { s with stack := r, dir := .down } []
          else moveOut { s with stack := r, dir := .up } []
      else if c = quoteChar then moveOut { s with stringmode := true } []
      else if c = ':' then
        match s.stack with
        | [] => moveOut { s with stack := [zeroDefault, zeroDefault] } []
        | t :: r => moveOut { s with stack := t :: t :: r } []
      else if c = '\\' then
        let (s0, s1, r) := pop2 s.stack
        moveOut { s with stack := s1 :: s0 :: r } []
      else if c = '$' then moveOut { s with stack := s.stack.tail } []
      else if c = '.' then
        match s.stack with
        | [] => moveOut s [.printInteger 0]
        | t :: r =>
          if t.sgn.posish then moveOut { s with stack := r } [.printInteger (t.mag : Int)]
          else moveOut { s with stack := r } [.printInteger (-(t.mag : Int))]
      else if c = ',' then
        match s.stack with
        | [] => moveOut s [.printAscii zeroDefault]
        | t :: r => moveOut { s with stack := r } [.printAscii t]
      else if c = '#' then moveOut { s with bridge := true } []
      else if c = 'g' then
        match s.stack with
        | [] => befunge_step_get_coord_check s zeroDefault zeroDefault []
        | t :: r0 =>
          if t.sgn = .neg then moveOut { s with stack := ⟨.pos, 0⟩ :: r0.drop 1 } []
          else
            match r0 with
            | [] => befunge_step_get_coord_check s t zeroDefault []
            | u :: r1 =>
              if u.sgn = .neg then moveOut { s with stack := ⟨.pos, 0⟩ :: r1 } []
              else befunge_step_get_coord_check s t u r1
      else if c = 'p' then
        match s.stack with
        | [] => .stuck
        | t :: r0 =>
          if t.sgn = .neg then moveOut { s with stack := r0.drop 2 } []
          else
            match r0 with
            | [] => moveOut { s with stack := [] } []
            | u :: r1 =>
              if u.sgn = .neg then moveOut { s with stack := r1.drop 1 } []
              else
                let v := r1.headD zeroDefault
                let newcell : Cell :=
                  match code_to_char_pretty v with
                  | .negative => .num v
                  | .plain => .num v
                  | .withChar pc => .ch pc
                befunge_step_put_coord_check s t u newcell (r1.drop 1)
      else if c = '&' then
        moveOut { s with stack := isize_to_base1 env.intAns :: s.stack } [.getInteger]
      else if c = '~' then
        moveOut { s with stack := char_to_code env.asciiAns :: s.stack } [.getAscii]
      else if c = '@' then .halted s.stack
      else if c = '0' then moveOut { s with stack := ⟨.pos, 0⟩ :: s.stack } []
      else if c = '1' then moveOut { s with stack := ⟨.pos, 1⟩ :: s.stack } []
      else if c = '2' then moveOut { s with stack := ⟨.pos, 2⟩ :: s.stack } []
      else if c = '3' then moveOut { s with stack := ⟨.pos, 3⟩ :: s.stack } []
      else if c = '4' then moveOut { s with stack := ⟨.pos, 4⟩ :: s.stack } []
      else if c = '5' then moveOut { s with stack := ⟨.pos, 5⟩ :: s.stack } []
      else if c = '6' then moveOut { s with stack := ⟨.pos, 6⟩ :: s.stack } []
      else if c = '7' then moveOut { s with stack := ⟨.pos, 7⟩ :: s.stack } []
      else if c = '8' then moveOut { s with stack := ⟨.pos, 8⟩ :: s.stack } []
      else if c = '9' then moveOut { s with stack := ⟨.pos, 9⟩ :: s.stack } []
      else
        .unknownInstr (.ch c) s.prog.pre.length s.prog.row.cpre.length s.stack s.dir

/-! ## init.rs : loading a program -/

/-- Outcome of `befunge_init!`: the reassembled program memory handed to
`befunge_step! @init`, or one of the two `InitializationError` variants. -/
inductive InitOut where
  | ok (program : List (List Cell)) : InitOut
  | tooManyRows : InitOut
  | tooManyCols : InitOut
deriving DecidableEq, Repr

/-- The space cell the initial grid is filled with. -/
def spaceCell : Cell := .ch ' '

/-- The `@lines` arms of `befunge_init!`, in source order: empty input
reassembles the program; a newline with more input and no pending rows is the
too-many-rows error; a newline with more input advances to the next pending
row; a final lone newline just ends the input; any other head character is
written at the cursor, erroring with too-many-columns when the current row
has no room left. -/
def befunge_init_lines : List Char → List (List Cell) → RowZip → List (List Cell) → InitOut
  | [], pre, ⟨cpre, cur, cpst⟩, pst => .ok (pre ++ (cpre ++ cur :: cpst) :: pst)
  | '\n' :: _ :: _, _, _, [] => .tooManyRows
  | '\n' :: r :: rest, pre, ⟨cpre, cur, cpst⟩, (ph :: pt) :: pstt =>
    befunge_init_lines (r :: rest) (pre ++ [cpre ++ cur :: cpst]) ⟨[], ph, pt⟩ pstt
  | ['\n'], pre, rz, pst => befunge_init_lines [] pre rz pst
  | c :: rest, pre, rz, pst =>
    match rz.cpst with
    | [] => .tooManyCols
    | h :: t => befunge_init_lines rest pre ⟨rz.cpre ++ [.ch c], h, t⟩ pst

/-- Initialisation `befunge_init! @init`: the writer starts on an all-space grid whose first
(current) row is 1 + 80 cells wide — the cursor cell plus eighty padding
spaces written in the source — over 24 further rows of 80 spaces each. -/
def befunge_init (input : List Char) : InitOut :=
  befunge_init_lines input []
    ⟨[], spaceCell, List.replicate 80 spaceCell⟩
    (List.replicate 24 (List.replicate 80 spaceCell))

/-! ## Fixtures used by the claim theorems -/

/-- A minimal two-row program state for exercising a single instruction: the
instruction under the pointer, direction right with room to move. -/
def mkInstrState (cell : Cell) (stk : List SMNum) : BefState :=
  ⟨stk, .right, false, false,
    ⟨[], ⟨[], cell, [spaceCell]⟩, [[spaceCell, spaceCell]]⟩⟩

/-- The state `mkInstrState` after a successful move right. -/
def mkInstrStateMoved (cell : Cell) (stk : List SMNum) : BefState :=
  ⟨stk, .right, false, false,
    ⟨[], ⟨[cell], spaceCell, []⟩, [[spaceCell, spaceCell]]⟩⟩

/-- A fixed environment of external answers for concrete evaluations. -/
def env0 : ExtEnv := ⟨7, -3, 5, 'a', .down⟩

/-- The sign factor of a signed magnitude number. -/
def sgnInt (s : Sgn) : Int := if s.posish then 1 else -1


/-- The cell of the flattened program memory at row `y`, column `x`. -/
def cellAt (rows : List (List Cell)) (y x : Nat) : Cell :=
  (rows.getD y []).getD x spaceCell


/-- A concrete 25-row, 80-column state positioned on `p` with the stack
`y = 0, x = 1, v = -3`. -/
def c7PutState : BefState :=
  ⟨[⟨.pos, 0⟩, ⟨.pos, 1⟩, ⟨.neg, 3⟩], .right, false, false,
    ⟨[], ⟨[], .ch 'p', List.replicate 79 spaceCell⟩,
      List.replicate 24 (List.replicate 80 spaceCell)⟩⟩


theorem arith_div_mod_exec_eq (bmag : Nat) (hb : 0 < bmag) :
    ∀ fuel left, left ≤ fuel →
      arith_div_mod_exec bmag fuel left = (left / bmag, left % bmag) := by
  intro fuel
  induction fuel with
  | zero =>
    intro left hle
    have hz : left = 0 := Nat.le_zero.mp hle
    subst hz
    simp [arith_div_mod_exec, Nat.div_eq_of_lt hb, Nat.mod_eq_of_lt hb]
  | succ n ih =>
    intro left hle
    by_cases h : bmag ≤ left
    · have hrec := ih (left - bmag) (by omega)
      rw [arith_div_mod_exec, if_pos ⟨hb, h⟩, hrec,
        Nat.div_eq_sub_div hb h, Nat.mod_eq_sub_mod h]
    · rw [arith_div_mod_exec, if_neg (by tauto)]
      have hlt : left < bmag := Nat.lt_of_not_le h
      rw [Nat.div_eq_of_lt hlt, Nat.mod_eq_of_lt hlt]

/-- With a nonzero divisor magnitude, `arith_div_mod!` computes natural number
quotient and remainder. -/
theorem arith_div_mod_eq (amag bmag : Nat) (hb : 0 < bmag) :
    arith_div_mod amag bmag = (amag / bmag, amag % bmag) :=
  arith_div_mod_exec_eq bmag hb amag amag le_rfl


/-! Sanity checks against the doctests of arith.rs. -/

example : arith_add ⟨.pos, 5⟩ ⟨.pos, 6⟩ = ⟨.pos, 11⟩ := by decide
example : arith_add ⟨.pos, 1⟩ ⟨.neg, 2⟩ = ⟨.neg, 1⟩ := by decide
example : arith_add ⟨.neg, 2⟩ ⟨.pos, 3⟩ = ⟨.pos, 1⟩ := by decide
example : arith_sub ⟨.pos, 5⟩ ⟨.pos, 6⟩ = ⟨.neg, 1⟩ := by decide
example : arith_sub ⟨.neg, 5⟩ ⟨.neg, 6⟩ = ⟨.pos, 1⟩ := by decide
example : arith_sub ⟨.neg, 2⟩ ⟨.pos, 3⟩ = ⟨.neg, 5⟩ := by decide
example : arith_mul ⟨.neg, 2⟩ ⟨.neg, 6⟩ = ⟨.pos, 12⟩ := by decide
example : arith_mul ⟨.pos, 4⟩ ⟨.neg, 2⟩ = ⟨.neg, 8⟩ := by decide
example : arith_div ⟨.pos, 5⟩ ⟨.pos, 2⟩ = .val ⟨.pos, 2⟩ := by decide
example : arith_div ⟨.pos, 5⟩ ⟨.neg, 2⟩ = .val ⟨.neg, 2⟩ := by decide
example : arith_div ⟨.neg, 5⟩ ⟨.pos, 2⟩ = .val ⟨.neg, 2⟩ := by decide
example : arith_div ⟨.neg, 5⟩ ⟨.neg, 2⟩ = .val ⟨.pos, 2⟩ := by decide
example : arith_div ⟨.neg, 2⟩ ⟨.pos, 5⟩ = .val ⟨.pos, 0⟩ := by decide
example : arith_mod ⟨.pos, 5⟩ ⟨.neg, 2⟩ = .val ⟨.pos, 1⟩ := by decide
example : arith_mod ⟨.neg, 5⟩ ⟨.pos, 2⟩ = .val ⟨.neg, 1⟩ := by decide
example : arith_mod ⟨.neg, 5⟩ ⟨.neg, 2⟩ = .val ⟨.neg, 1⟩ := by decide
example : arith_mod ⟨.neg, 2⟩ ⟨.pos, 5⟩ = .val ⟨.neg, 2⟩ := by decide
example : arith_mod ⟨.pos, 2⟩ ⟨.neg, 5⟩ = .val ⟨.pos, 2⟩ := by decide


theorem list_split_at_length_of_eq {α : Type} :
    ∀ (n : Nat) (xs : List α), n ≤ xs.length →
      list_split_at_length_of n xs = some (xs.take n, xs.drop n) := by
  intro n
  induction n with
  | zero => intro xs _; simp [list_split_at_length_of]
  | succ m ih =>
    intro xs hn
    match xs with
    | [] => simp at hn
    | x :: t =>
      have := ih t (by simpa using hn)
      simp [list_split_at_length_of, this]

theorem list_init_last_concat {α : Type} :
    ∀ (l : List α) (a : α), list_init_last (l ++ [a]) = some (l, a) := by
  intro l
  induction l with
  | nil => intro a; simp [list_init_last]
  | cons x t ih =>
    intro a
    match h : t ++ [a] with
    | [] => simp at h
    | y :: r =>
      simp only [List.cons_append, list_init_last, h]
      rw [← h, ih a]


example :
    befunge_step env0 (mkInstrState (.ch '+') [⟨.pos, 3⟩, ⟨.pos, 5⟩]) =
      .next (mkInstrStateMoved (.ch '+') [⟨.pos, 8⟩]) [] := by decide

example :
    befunge_step env0 (mkInstrState (.ch '/') [⟨.pos, 0⟩, ⟨.pos, 5⟩]) =
      .next (mkInstrStateMoved (.ch '/') [⟨.pos, 7⟩]) [.divByZero] := by decide

/-! ## Helper lemmas -/

theorem toInt_eq_sgnInt_mul (n : SMNum) : n.toInt = sgnInt n.sgn * n.mag := by
  cases h : n.sgn <;> simp [SMNum.toInt, sgnInt, Sgn.posish, h]

theorem sgnInt_mul_self (s : Sgn) : sgnInt s * sgnInt s = 1 := by
  cases s <;> simp [sgnInt, Sgn.posish]

theorem natAbs_toInt (n : SMNum) : n.toInt.natAbs = n.mag := by
  cases h : n.sgn <;> simp [SMNum.toInt, h]

/-- With a nonzero divisor magnitude, `arith_mod!` keeps the sign token of the
dividend on the remainder of the magnitudes. -/
theorem arith_mod_eq_val (a b : SMNum) (hb : b.mag ≠ 0) :
    arith_mod a b = .val ⟨a.sgn, a.mag % b.mag⟩ := by
  rw [arith_mod, if_neg hb]
  by_cases h : b.mag ≤ a.mag
  · rw [if_pos h, arith_div_mod_eq _ _ (Nat.pos_of_ne_zero hb)]
  · rw [if_neg h, Nat.mod_eq_of_lt (Nat.lt_of_not_le h)]

/-- With a nonzero divisor magnitude, `arith_div!` yields a quotient whose
value is the sign-combined truncated quotient of the magnitudes. -/
theorem arith_div_eq_val (a b : SMNum) (hb : b.mag ≠ 0) :
    ∃ q, arith_div a b = .val q ∧
      q.toInt = sgnInt a.sgn * sgnInt b.sgn * (a.mag / b.mag : Nat) := by
  rw [arith_div]
  by_cases ha : a.mag = 0
  · refine ⟨⟨.pos, 0⟩, by rw [if_pos ha], ?_⟩
    simp [SMNum.toInt, ha]
  rw [if_neg ha, if_neg hb]
  by_cases h1 : b.sgn.posish ∧ b.mag = 1
  · refine ⟨a, by rw [if_pos h1], ?_⟩
    rw [toInt_eq_sgnInt_mul, h1.2, Nat.div_one]
    have : sgnInt b.sgn = 1 := by simp [sgnInt, h1.1]
    rw [this]; ring
  rw [if_neg h1]
  by_cases h2 : b.sgn = .neg ∧ b.mag = 1
  · cases has : a.sgn with
    | neg =>
      refine ⟨⟨.pos, a.mag⟩, by rw [if_pos h2], ?_⟩
      simp [SMNum.toInt, h2.1, h2.2, sgnInt, has, Sgn.posish]
    | pos =>
      refine ⟨⟨.neg, a.mag⟩, by rw [if_pos h2], ?_⟩
      simp [SMNum.toInt, h2.1, h2.2, sgnInt, has, Sgn.posish]
    | emp =>
      refine ⟨⟨.neg, a.mag⟩, by rw [if_pos h2], ?_⟩
      simp [SMNum.toInt, h2.1, h2.2, sgnInt, has, Sgn.posish]
  rw [if_neg h2]
  by_cases h3 : a.mag < b.mag
  · refine ⟨⟨.pos, 0⟩, by rw [if_pos h3], ?_⟩
    simp [SMNum.toInt, Nat.div_eq_of_lt h3]
  rw [if_neg h3, arith_div_mod_eq _ _ (Nat.pos_of_ne_zero hb)]
  refine ⟨_, rfl, ?_⟩
  rcases hpa : a.sgn.posish <;> rcases hpb : b.sgn.posish <;>
    simp [hpa, hpb, SMNum.toInt, sgnInt]

theorem posish_false_iff (s : Sgn) : s.posish = false ↔ s = .neg := by
  cases s <;> simp [Sgn.posish]

theorem toInt_of_posish (n : SMNum) (h : n.sgn.posish = true) :
    n.toInt = (n.mag : Int) := by
  cases hs : n.sgn
  · simp [SMNum.toInt, hs]
  · simp [SMNum.toInt, hs]
  · rw [hs] at h
    simp [Sgn.posish] at h

theorem toInt_of_neg (n : SMNum) (h : n.sgn = .neg) :
    n.toInt = -(n.mag : Int) := by
  simp [SMNum.toInt, h]

/-- Claim C5: for all integers `a`, `b` with `b ≠ 0`, the division and modulo
instructions satisfy `a = b * trunc_div(a, b) + mod(a, b)`, the sign of
`mod(a, b)` is zero or the sign of the dividend, and
`|mod(a, b)| = |a| mod |b|`. -/
theorem C5_trunc_div_mod_identity (a b : SMNum) (hb : b.mag ≠ 0) :
    ∃ q r, arith_div a b = .val q ∧ arith_mod a b = .val r ∧
      a.toInt = b.toInt * q.toInt + r.toInt ∧
      (r.toInt = 0 ∨ r.toInt.sign = a.toInt.sign) ∧
      r.toInt.natAbs = a.toInt.natAbs % b.toInt.natAbs := by
  obtain ⟨q, hq, hqv⟩ := arith_div_eq_val a b hb
  refine ⟨q, ⟨a.sgn, a.mag % b.mag⟩, hq, arith_mod_eq_val a b hb, ?_, ?_, ?_⟩
  · have key : (b.mag : Int) * ((a.mag / b.mag : Nat) : Int) +
        ((a.mag % b.mag : Nat) : Int) = (a.mag : Int) := by
      exact_mod_cast Nat.div_add_mod a.mag b.mag
    rcases hpa : a.sgn.posish <;> rcases hpb : b.sgn.posish
    · rw [hqv]
      rw [toInt_of_neg a ((posish_false_iff _).mp hpa),
        toInt_of_neg b ((posish_false_iff _).mp hpb),
        toInt_of_neg _ (by simpa using (posish_false_iff _).mp hpa)]
      simp only [hpa, hpb, sgnInt, Bool.false_eq_true, if_false]
      linear_combination key
    · rw [hqv]
      rw [toInt_of_neg a ((posish_false_iff _).mp hpa),
        toInt_of_posish b hpb,
        toInt_of_neg _ (by simpa using (posish_false_iff _).mp hpa)]
      simp only [hpa, hpb, sgnInt, Bool.false_eq_true, if_false, if_true]
      linear_combination key
    · rw [hqv]
      rw [toInt_of_posish a hpa,
        toInt_of_neg b ((posish_false_iff _).mp hpb),
        toInt_of_posish (SMNum.mk a.sgn (a.mag % b.mag)) (by simpa using hpa)]
      simp only [hpa, hpb, sgnInt, Bool.false_eq_true, if_false, if_true]
      linear_combination -key
    · rw [hqv]
      rw [toInt_of_posish a hpa, toInt_of_posish b hpb,
        toInt_of_posish (SMNum.mk a.sgn (a.mag % b.mag)) (by simpa using hpa)]
      simp only [hpa, hpb, sgnInt, if_true]
      linear_combination -key
  · by_cases hm : a.mag % b.mag = 0
    · left
      cases hs : a.sgn <;> simp [SMNum.toInt, hs, hm]
    · right
      have hma : a.mag ≠ 0 := fun h => hm (by simp [h, Nat.zero_mod])
      rcases hpa : a.sgn.posish
      · have hs := (posish_false_iff _).mp hpa
        rw [toInt_of_neg _ (by simpa using hs), toInt_of_neg a hs,
          Int.sign_neg, Int.sign_neg,
          Int.sign_natCast_of_ne_zero hm, Int.sign_natCast_of_ne_zero hma]
      · rw [toInt_of_posish _ (by simpa using hpa), toInt_of_posish a hpa,
          Int.sign_natCast_of_ne_zero hm, Int.sign_natCast_of_ne_zero hma]
  · rw [natAbs_toInt, natAbs_toInt, natAbs_toInt]

/-- Claim C5, witnessed at `a = -5`, `b = 2`. -/
theorem C5_trunc_div_mod_identity_witness :
    (SMNum.mk .pos 2).mag ≠ 0 ∧
      (∃ q r, arith_div ⟨.neg, 5⟩ ⟨.pos, 2⟩ = .val q ∧
        arith_mod ⟨.neg, 5⟩ ⟨.pos, 2⟩ = .val r ∧
        (SMNum.mk .neg 5).toInt = (SMNum.mk .pos 2).toInt * q.toInt + r.toInt ∧
        (r.toInt = 0 ∨ r.toInt.sign = (SMNum.mk .neg 5).toInt.sign) ∧
        r.toInt.natAbs =
          (SMNum.mk .neg 5).toInt.natAbs % (SMNum.mk .pos 2).toInt.natAbs) :=
  ⟨by decide, C5_trunc_div_mod_identity ⟨.neg, 5⟩ ⟨.pos, 2⟩ (by decide)⟩

theorem toInt_isize_to_base1 (z : Int) : (isize_to_base1 z).toInt = z := by
  by_cases hz : z < 0
  · simp only [isize_to_base1, if_pos hz, SMNum.toInt]
    omega
  · simp only [isize_to_base1, if_neg hz, SMNum.toInt]
    omega

/-- Claim C1 (counterexample to the claim as stated): executing `/` with
dividend 0 and divisor 0 issues no request at all (the event trace is empty,
not a DivByZero exchange) and pushes 0, not the externally supplied value
(`env0.divAns = 7`); the `0 / b` arm of `arith_div!` precedes the `a / 0`
arm. -/
theorem C1_counterexample_zero_div_zero :
    befunge_step env0 (mkInstrState (.ch '/') [⟨.pos, 0⟩, ⟨.pos, 0⟩]) =
      .next (mkInstrStateMoved (.ch '/') [⟨.pos, 0⟩]) [] ∧
    env0.divAns = 7 := by decide

/-- Claim C1 (amended): for operands carrying an explicit sign token — and,
for division, a nonzero dividend; modulo requests for every dividend, zero
included — a zero divisor suspends the instruction, issues exactly one
DivByZero (resp. ModByZero) request, and pushes exactly the externally
supplied signed integer, unchecked.  A zero divisor with the empty sign
bracket (the defaulted zero the interpreter itself produces) instead fails the
arms' non-optional sign matchers and the program dies as an unknown
instruction; a division of dividend 0 by divisor 0 yields 0 immediately with
no request. -/
theorem C1_div_mod_by_zero_amended (env : ExtEnv) (sg sg' : Sgn) (a b : SMNum)
    (r r' : List SMNum) (ha : a.mag ≠ 0)
    (hsg : sg.tok = true) (hsg' : sg'.tok = true)
    (hat : a.sgn.tok = true) (hbt : b.sgn.tok = true) :
    befunge_step env (mkInstrState (.ch '/') (⟨sg, 0⟩ :: a :: r)) =
      .next (mkInstrStateMoved (.ch '/') (isize_to_base1 env.divAns :: r))
        [.divByZero] ∧
    befunge_step env (mkInstrState (.ch '%') (⟨sg', 0⟩ :: b :: r')) =
      .next (mkInstrStateMoved (.ch '%') (isize_to_base1 env.modAns :: r'))
        [.modByZero] ∧
    befunge_step env (mkInstrState (.ch '/') (zeroDefault :: a :: r)) =
      .unknownInstr (.ch '/') 0 0 (zeroDefault :: a :: r) .right ∧
    befunge_step env (mkInstrState (.ch '%') (zeroDefault :: b :: r')) =
      .unknownInstr (.ch '%') 0 0 (zeroDefault :: b :: r') .right ∧
    (isize_to_base1 env.divAns).toInt = env.divAns ∧
    (isize_to_base1 env.modAns).toInt = env.modAns := by
  refine ⟨?_, ?_, ?_, ?_, toInt_isize_to_base1 _, toInt_isize_to_base1 _⟩
  · simp [befunge_step, mkInstrState, mkInstrStateMoved, div_mod_stack_matches,
      hsg, hat, pop2, arith_div, ha, moveOut, befunge_move]
  · simp [befunge_step, mkInstrState, mkInstrStateMoved, div_mod_stack_matches,
      hsg', hbt, pop2, arith_mod, moveOut, befunge_move]
  · simp [befunge_step, mkInstrState, div_mod_stack_matches, zeroDefault,
      Sgn.tok]
  · simp [befunge_step, mkInstrState, div_mod_stack_matches, zeroDefault,
      Sgn.tok]

/-- Claim C1 (amended), witnessed at dividend 5, divisor 0 for `/` and
dividend 0, divisor 0 for `%`, with explicitly positive signs; the defaulted
empty-sign divisor dies as an unknown instruction on the same operands. -/
theorem C1_div_mod_by_zero_amended_witness :
    ((SMNum.mk .pos 5).mag ≠ 0 ∧ Sgn.tok .pos = true) ∧
      (befunge_step env0 (mkInstrState (.ch '/') [⟨.pos, 0⟩, ⟨.pos, 5⟩]) =
        .next (mkInstrStateMoved (.ch '/') (isize_to_base1 env0.divAns :: []))
          [.divByZero] ∧
      befunge_step env0 (mkInstrState (.ch '%') [⟨.pos, 0⟩, ⟨.pos, 0⟩]) =
        .next (mkInstrStateMoved (.ch '%') (isize_to_base1 env0.modAns :: []))
          [.modByZero] ∧
      befunge_step env0 (mkInstrState (.ch '/') [zeroDefault, ⟨.pos, 5⟩]) =
        .unknownInstr (.ch '/') 0 0 [zeroDefault, ⟨.pos, 5⟩] .right ∧
      befunge_step env0 (mkInstrState (.ch '%') [zeroDefault, ⟨.pos, 0⟩]) =
        .unknownInstr (.ch '%') 0 0 [zeroDefault, ⟨.pos, 0⟩] .right ∧
      (isize_to_base1 env0.divAns).toInt = env0.divAns ∧
      (isize_to_base1 env0.modAns).toInt = env0.modAns) :=
  ⟨⟨by decide, by decide⟩,
    C1_div_mod_by_zero_amended env0 .pos .pos ⟨.pos, 5⟩ ⟨.pos, 0⟩ [] []
      (by decide) (by decide) (by decide) (by decide) (by decide)⟩

/-- Claim C2: the code disagrees with the claim when the top two stack values
are equal negatives.  Executing `` ` `` on the stack `s0 = s1 = -1` pushes 1,
although `s1 > s0` is false there (the both-negative arm only pushes 0 when
`|s1| > |s0|` strictly); the claim and the instruction's own comment demand 0. -/
theorem C2_grt_equal_negatives :
    befunge_step env0
        (mkInstrState (.ch backquoteChar) [⟨.neg, 1⟩, ⟨.neg, 1⟩]) =
      .next (mkInstrStateMoved (.ch backquoteChar) [⟨.pos, 1⟩]) [] ∧
    (SMNum.toInt ⟨.neg, 1⟩ > SMNum.toInt ⟨.neg, 1⟩) = False := by
  constructor
  · decide
  · decide

/-- Claim C3: beyond-grid coordinates do not behave as claimed.  A `g` at
`(x, y) = (0, 25)` aborts the expansion (the out-of-bounds fallback mentions
the never-bound `$progstate`) instead of pushing 0 and continuing, and a `p`
at `(0, 25)` ends the expansion with no continuation instead of being a no-op
that continues with the next step.  (Negative coordinates do behave as
claimed.) -/
theorem C3_out_of_bounds_get_put :
    befunge_step env0 (mkInstrState (.ch 'g') [⟨.pos, 25⟩, ⟨.pos, 0⟩]) =
      .stuck ∧
    befunge_step env0
        (mkInstrState (.ch 'p') [⟨.pos, 25⟩, ⟨.pos, 0⟩, ⟨.pos, 65⟩]) =
      .abandoned := by
  constructor
  · decide
  · decide

/-- Claim C4: multiplying `-1` by `0` yields `[[neg] []]` — a zero value in
the negative-sign representation the crate's own documentation forbids — not
the non-negative zero; likewise `0 * (-3)`. -/
theorem C4_mul_negative_zero :
    arith_mul ⟨.neg, 1⟩ ⟨.pos, 0⟩ = ⟨.neg, 0⟩ ∧
    arith_mul ⟨.pos, 0⟩ ⟨.neg, 3⟩ = ⟨.neg, 0⟩ ∧
    (SMNum.mk .neg 0).toInt = 0 ∧ SMNum.mk .neg 0 ≠ SMNum.mk .pos 0 := by
  refine ⟨by decide, by decide, by decide, by decide⟩

/-- Claim C6: moving left from column 0 does not wrap to the last column; the
left-wrap arm invokes `list_init_last!` with a stray comma after `@init`,
which no arm of that macro accepts, so the step aborts.  (The same state
moving right, up or down does wrap/advance.) -/
theorem C6_left_wrap_broken :
    befunge_step env0
        ⟨[], .left, false, false,
          ⟨[[spaceCell, spaceCell]], ⟨[], spaceCell, [spaceCell]⟩,
            [[spaceCell, spaceCell]]⟩⟩ =
      .stuck ∧
    befunge_step env0
        ⟨[], .up, false, false,
          ⟨[], ⟨[], spaceCell, [spaceCell]⟩, [[spaceCell, spaceCell]]⟩⟩ =
      .next
        ⟨[], .up, false, false,
          ⟨[[spaceCell, spaceCell]], ⟨[], spaceCell, [spaceCell]⟩, []⟩⟩ [] := by
  constructor
  · decide
  · decide

/-- Claim C8: with stringmode set, a step on a cell holding a numeric value
(as written by `p`) does not push the cell's code: the numeric-cell arm
shadows the correct later arm, pushes a bare `[]`, mentions the never-bound
`$stringmode` and emits a stray `:tt`, so the expansion aborts.  A quote cell
does clear stringmode, and a character cell does push its code. -/
theorem C8_stringmode_numeric_cell :
    befunge_step env0
        ⟨[], .right, true, false,
          ⟨[], ⟨[], .num ⟨.pos, 104⟩, [spaceCell]⟩, [[spaceCell, spaceCell]]⟩⟩ =
      .stuck ∧
    befunge_step env0
        ⟨[], .right, true, false,
          ⟨[], ⟨[], .ch quoteChar, [spaceCell]⟩, [[spaceCell, spaceCell]]⟩⟩ =
      .next
        ⟨[], .right, false, false,
          ⟨[], ⟨[.ch quoteChar], spaceCell, []⟩, [[spaceCell, spaceCell]]⟩⟩ [] ∧
    befunge_step env0
        ⟨[], .right, true, false,
          ⟨[], ⟨[], .ch 'h', [spaceCell]⟩, [[spaceCell, spaceCell]]⟩⟩ =
      .next
        ⟨[⟨.pos, 104⟩], .right, true, false,
          ⟨[], ⟨[.ch 'h'], spaceCell, []⟩, [[spaceCell, spaceCell]]⟩⟩ [] := by
  refine ⟨by decide, by decide, by decide⟩

/-- Claim C9: `+` on an empty stack does push `0 + 0 = 0` and leaves exactly
one element, but stack underflow can abort execution: `p` on an empty stack
transcribes empty `y:`/`x:` fields that no `@catch` arm accepts, aborting the
expansion instead of supplying default zeroes. -/
theorem C9_underflow :
    befunge_step env0 (mkInstrState (.ch '+') []) =
      .next (mkInstrStateMoved (.ch '+') [⟨.emp, 0⟩]) [] ∧
    (SMNum.mk .emp 0).toInt = 0 ∧
    befunge_step env0 (mkInstrState (.ch 'p') []) = .stuck := by
  refine ⟨by decide, by decide, by decide⟩

/-- Claim C10: the loaded grid is not rectangular.  Loading the empty program
succeeds and yields 25 rows, but row 0 has 81 cells (the writer's first row is
a cursor cell plus eighty padding spaces) while rows 1 to 24 have 80 cells. -/
theorem C10_grid_row_lengths :
    ∃ g, befunge_init [] = .ok g ∧
      g.map List.length = 81 :: List.replicate 24 80 := by
  refine ⟨_, rfl, by decide⟩

/-! ## Lemmas for the put/get round trip -/

theorem list_set_getElem_self {α : Type} (l : List α) (n : Nat)
    (h : n < l.length) : l.set n l[n] = l := by
  apply List.ext_getElem
  · simp
  · intro i h1 h2
    rw [List.getElem_set]
    split
    · simp_all
    · rfl

theorem list_take_getElem_drop {α : Type} (l : List α) (n : Nat)
    (h : n < l.length) : l.take n ++ l[n] :: l.drop (n + 1) = l := by
  conv_rhs => rw [← list_set_getElem_self l n h]
  exact (List.set_eq_take_cons_drop _ h).symm

/-- A state heading right with room in the current row moves to the next
column, preserving the stack and the flattened program memory. -/
theorem moveOut_next_right (t : BefState) (hdir : t.dir = .right)
    (hcpst : t.prog.row.cpst ≠ []) (ev : List Event) :
    ∃ u, moveOut t ev = .next u ev ∧ u.stack = t.stack ∧
      u.prog.rows = t.prog.rows := by
  obtain ⟨sk, d, sm, br, ⟨pre, ⟨cpre, cell, cpst⟩, pst⟩⟩ := t
  obtain rfl : d = .right := hdir
  obtain ⟨c0, ct, rfl⟩ : ∃ c0 ct, cpst = c0 :: ct :=
    List.exists_cons_of_ne_nil hcpst
  refine ⟨⟨sk, .right, sm, br, ⟨pre, ⟨cpre ++ [cell], c0, ct⟩, pst⟩⟩, rfl, rfl, ?_⟩
  simp [ProgZip.rows]

/-- The in-bounds behaviour of the `g` coordinate check: the cell at
`(x, y)` is pushed, numbers directly and characters via `char_to_code!`. -/
theorem get_coord_check_next (t : BefState) (y x : Nat) (restg : List SMNum)
    (hx : x ≤ 79) (hy : y ≤ 24)
    (hylen : y < t.prog.rows.length)
    (hxlen : x < (t.prog.rows.getD y []).length)
    (hdir : t.dir = .right) (hcpst : t.prog.row.cpst ≠ []) :
    ∃ t₁, befunge_step_get_coord_check t ⟨.pos, y⟩ ⟨.pos, x⟩ restg = .next t₁ [] ∧
      t₁.stack =
        (match cellAt t.prog.rows y x with
          | .num n => n
          | .ch c => char_to_code c) :: restg := by
  have hcond : (SMNum.mk .pos x).mag ≤ 79 ∧ (SMNum.mk .pos y).mag ≤ 24 := ⟨hx, hy⟩
  have hgy : t.prog.rows.getD y [] = t.prog.rows[y] :=
    List.getD_eq_getElem _ _ hylen
  rw [hgy] at hxlen
  have hsplit1 := list_split_at_length_of_eq (SMNum.mk .pos y).mag t.prog.rows
    (le_of_lt hylen)
  have hsplit2 := list_split_at_length_of_eq (SMNum.mk .pos x).mag
    (t.prog.rows[y]) (le_of_lt hxlen)
  rw [befunge_step_get_coord_check, if_pos hcond]
  simp only [hsplit1, List.drop_eq_getElem_cons hylen, hsplit2,
    List.drop_eq_getElem_cons hxlen]
  have hcell : cellAt t.prog.rows y x = (t.prog.rows[y])[x] := by
    rw [cellAt, hgy]
    exact List.getD_eq_getElem _ _ hxlen
  rw [hcell]
  cases hc : (t.prog.rows[y])[x] with
  | num n =>
    obtain ⟨u, hu, hus, _⟩ :=
      moveOut_next_right { t with stack := n :: restg } hdir hcpst []
    exact ⟨u, hu, by rw [hus]⟩
  | ch c =>
    obtain ⟨u, hu, hus, _⟩ :=
      moveOut_next_right { t with stack := char_to_code c :: restg } hdir hcpst []
    exact ⟨u, hu, by rw [hus]⟩

/-- The in-bounds behaviour of the `p` coordinate check: the cell at `(x, y)`
of the flattened program memory is replaced, the zipper is rebuilt at the same
position, the three operands are gone from the stack, and the step moves on. -/
theorem put_coord_check_next (s : BefState) (y x : Nat) (nc : Cell)
    (rest : List SMNum) (hx : x ≤ 79) (hy : y ≤ 24)
    (hlen : s.prog.rows.length = 25)
    (hwide : ∀ row ∈ s.prog.rows, 80 ≤ row.length)
    (hdir : s.dir = .right) (hcpst : s.prog.row.cpst ≠ []) :
    ∃ s₁, befunge_step_put_coord_check s ⟨.pos, y⟩ ⟨.pos, x⟩ nc rest =
        .next s₁ [] ∧
      s₁.prog.rows = s.prog.rows.set y ((s.prog.rows.getD y []).set x nc) ∧
      s₁.stack = rest := by
  obtain ⟨sk, d, sm, br, ⟨pre, ⟨cpre, cell, cpst⟩, pst⟩⟩ := s
  obtain rfl : d = .right := hdir
  obtain ⟨c0, ct, rfl⟩ : ∃ c0 ct, cpst = c0 :: ct :=
    List.exists_cons_of_ne_nil hcpst
  have hcond : (SMNum.mk .pos x).mag ≤ 79 ∧ (SMNum.mk .pos y).mag ≤ 24 := ⟨hx, hy⟩
  set R : List (List Cell) := pre ++ (cpre ++ cell :: c0 :: ct) :: pst with hR
  have hlenR : R.length = 25 := hlen
  have hylen : y < R.length := by omega
  have hg : R.getD y [] = R[y] := List.getD_eq_getElem _ _ hylen
  have hrh80 : 80 ≤ (R[y]).length := hwide _ (List.getElem_mem hylen)
  have hxlen : x < (R[y]).length := by omega
  have hmagy : (SMNum.mk Sgn.pos y).mag = y := rfl
  have hmagx : (SMNum.mk Sgn.pos x).mag = x := rfl
  have hsplit1 := list_split_at_length_of_eq y R (le_of_lt hylen)
  have hsplit2 := list_split_at_length_of_eq x (R[y]) (le_of_lt hxlen)
  have hRlen : R.length = pre.length + (pst.length + 1) := by
    simp [hR]
  have hpreR : pre.length < R.length := by omega
  set N : List (List Cell) := R.set y ((R[y]).set x nc) with hN
  have hNform : List.take y R ++
      (List.take x (R[y]) ++ nc :: List.drop (x + 1) (R[y])) ::
        List.drop (y + 1) R = N := by
    rw [hN, List.set_eq_take_cons_drop _ hylen, List.set_eq_take_cons_drop nc hxlen]
  have hNlen : N.length = 25 := by rw [hN, List.length_set, hlenR]
  have hprelt : pre.length < N.length := by
    rw [hNlen]
    omega
  have hsplit3 := list_split_at_length_of_eq pre.length N (le_of_lt hprelt)
  have hRpre : R[pre.length] = cpre ++ cell :: c0 :: ct := by
    have hdropR : R.drop pre.length = (cpre ++ cell :: c0 :: ct) :: pst :=
      List.drop_left pre _
    have hd := List.drop_eq_getElem_cons (l := R) (n := pre.length) (by omega)
    rw [hdropR] at hd
    exact (List.cons.injEq _ _ _ _ |>.mp hd.symm).1
  have hncurlen : (N[pre.length]).length =
      (R[pre.length]).length := by
    simp only [hN, List.getElem_set]
    split
    · next heq =>
      subst heq
      simp [List.length_set]
    · rfl
  have hcprelt : cpre.length + 1 < (N[pre.length]).length := by
    rw [hncurlen, hRpre]
    simp
  have hcprelt0 : cpre.length < (N[pre.length]).length := by omega
  have hsplit4 := list_split_at_length_of_eq cpre.length (N[pre.length])
    (by omega)
  rw [befunge_step_put_coord_check, if_pos hcond]
  simp only [ProgZip.rows, hmagy, hmagx]
  rw [← hR]
  simp only [hsplit1, List.drop_eq_getElem_cons hylen, hsplit2,
    List.drop_eq_getElem_cons hxlen]
  rw [hNform]
  simp only [hsplit3, List.drop_eq_getElem_cons hprelt, hsplit4,
    List.drop_eq_getElem_cons hcprelt0]
  have hcp1 : (List.drop (cpre.length + 1) (N[pre.length])) ≠ [] := by
    apply List.ne_nil_of_length_pos
    rw [List.length_drop]
    omega
  obtain ⟨u, hu, hus, hur⟩ := moveOut_next_right
    ⟨rest, .right, sm, br,
      ⟨List.take pre.length N,
        ⟨List.take cpre.length (N[pre.length]),
          (N[pre.length])[cpre.length],
          List.drop (cpre.length + 1) (N[pre.length])⟩,
        List.drop (pre.length + 1) N⟩⟩ rfl hcp1 []
  refine ⟨u, hu, ?_, hus⟩
  show u.prog.rows = R.set y ((R.getD y []).set x nc)
  rw [hur]
  show List.take pre.length N ++
      (List.take cpre.length (N[pre.length]) ++
        ((N[pre.length])[cpre.length]) ::
          List.drop (cpre.length + 1) (N[pre.length])) ::
        List.drop (pre.length + 1) N =
    R.set y (R.getD y [] |>.set x nc)
  rw [list_take_getElem_drop _ _ hcprelt0, list_take_getElem_drop _ _ hprelt, hg]

theorem char_toNat_ofNat (m : Nat) (h : m < 256) : (Char.ofNat m).toNat = m := by
  have hv : m.isValidChar := Or.inl (by omega)
  simp only [Char.ofNat, hv, dif_pos, Char.ofNatAux, Char.toNat]
  rfl

/-- Claim C7 (spec-modelled conversions): on a 25-row grid whose rows are at
least 80 cells wide, executing `p` to write `v` at in-bounds `(x, y)` yields a
next state whose program memory holds the written cell, and executing `g` at
the same `(x, y)` on any state carrying that program memory pushes exactly one
value `w` with the integer value of `v`. -/
theorem C7_put_get_roundtrip (envp envg : ExtEnv) (x y : Nat) (v : SMNum)
    (rest restg : List SMNum) (s : BefState)
    (hx : x ≤ 79) (hy : y ≤ 24)
    (hsm : s.stringmode = false) (hbr : s.bridge = false)
    (hcell : s.prog.row.cell = .ch 'p')
    (hstk : s.stack = ⟨.pos, y⟩ :: ⟨.pos, x⟩ :: v :: rest)
    (hdir : s.dir = .right) (hcpst : s.prog.row.cpst ≠ [])
    (hlen : s.prog.rows.length = 25)
    (hwide : ∀ row ∈ s.prog.rows, 80 ≤ row.length) :
    ∃ s₁, befunge_step envp s = .next s₁ [] ∧
      ∀ t : BefState, t.stringmode = false → t.bridge = false →
        t.prog.row.cell = .ch 'g' →
        t.stack = ⟨.pos, y⟩ :: ⟨.pos, x⟩ :: restg →
        t.dir = .right → t.prog.row.cpst ≠ [] →
        t.prog.rows = s₁.prog.rows →
        ∃ t₁ w, befunge_step envg t = .next t₁ [] ∧
          t₁.stack = w :: restg ∧ w.toInt = v.toInt := by
  have hstep : ∀ nc : Cell,
      (∀ h : y < s.prog.rows.length,
        nc = .num v ∨
          (v.sgn.posish = true ∧ v.mag < 256 ∧ nc = .ch (Char.ofNat v.mag))) →
      (befunge_step envp s = befunge_step_put_coord_check s ⟨.pos, y⟩ ⟨.pos, x⟩
        nc rest) →
      ∃ s₁, befunge_step envp s = .next s₁ [] ∧
        ∀ t : BefState, t.stringmode = false → t.bridge = false →
          t.prog.row.cell = .ch 'g' →
          t.stack = ⟨.pos, y⟩ :: ⟨.pos, x⟩ :: restg →
          t.dir = .right → t.prog.row.cpst ≠ [] →
          t.prog.rows = s₁.prog.rows →
          ∃ t₁ w, befunge_step envg t = .next t₁ [] ∧
            t₁.stack = w :: restg ∧ w.toInt = v.toInt := by
    intro nc hnc hred
    obtain ⟨s₁, h1, hrows, hstk1⟩ :=
      put_coord_check_next s y x nc rest hx hy hlen hwide hdir hcpst
    refine ⟨s₁, by rw [hred, h1], ?_⟩
    intro t ht1 ht2 ht3 ht4 ht5 ht6 ht7
    have hylen : y < t.prog.rows.length := by
      rw [ht7, hrows, List.length_set, hlen]
      omega
    have hylen0 : y < s.prog.rows.length := by omega
    have hrow80 : 80 ≤ (s.prog.rows.getD y []).length := by
      rw [List.getD_eq_getElem _ _ hylen0]
      exact hwide _ (List.getElem_mem hylen0)
    have hrowt : t.prog.rows.getD y [] = (s.prog.rows.getD y []).set x nc := by
      have hlset :
          y < (s.prog.rows.set y ((s.prog.rows.getD y []).set x nc)).length := by
        rw [List.length_set]
        omega
      rw [ht7, hrows, List.getD_eq_getElem _ _ hlset, List.getElem_set]
      simp
    have hxlen : x < (t.prog.rows.getD y []).length := by
      rw [hrowt, List.length_set]
      omega
    have hcellt : cellAt t.prog.rows y x = nc := by
      rw [cellAt, hrowt, List.getD_eq_getElem _ _ (by rw [List.length_set]; omega),
        List.getElem_set]
      simp
    -- reduce the step on `t` to the coordinate check
    obtain ⟨tk, td, tsm, tbr, ⟨tpre, ⟨tcpre, tcell, tcpst⟩, tpst⟩⟩ := t
    obtain rfl : tsm = false := ht1
    obtain rfl : tbr = false := ht2
    obtain rfl : tcell = .ch 'g' := ht3
    obtain rfl : tk = ⟨.pos, y⟩ :: ⟨.pos, x⟩ :: restg := ht4
    obtain rfl : td = .right := ht5
    have hgred : befunge_step envg
        ⟨⟨.pos, y⟩ :: ⟨.pos, x⟩ :: restg, .right, false, false,
          ⟨tpre, ⟨tcpre, .ch 'g', tcpst⟩, tpst⟩⟩ =
        befunge_step_get_coord_check
          ⟨⟨.pos, y⟩ :: ⟨.pos, x⟩ :: restg, .right, false, false,
            ⟨tpre, ⟨tcpre, .ch 'g', tcpst⟩, tpst⟩⟩ ⟨.pos, y⟩ ⟨.pos, x⟩ restg := by
      simp [befunge_step, Sgn.posish,
        show (('g' : Char) = backquoteChar) = False by decide,
        show (('g' : Char) = quoteChar) = False by decide]
    obtain ⟨t₁, hget, hsget⟩ := get_coord_check_next
      ⟨⟨.pos, y⟩ :: ⟨.pos, x⟩ :: restg, .right, false, false,
        ⟨tpre, ⟨tcpre, .ch 'g', tcpst⟩, tpst⟩⟩ y x restg hx hy hylen hxlen rfl ht6
    rw [hcellt] at hsget
    rcases hnc hylen0 with hncv | ⟨hvp, hvm, hncc⟩
    · subst hncv
      exact ⟨t₁, v, by rw [hgred, hget], hsget, rfl⟩
    · subst hncc
      refine ⟨t₁, char_to_code (Char.ofNat v.mag), by rw [hgred, hget], hsget, ?_⟩
      rw [char_to_code]
      rw [toInt_of_posish _ (by simpa [Sgn.posish] using hvp),
        toInt_of_posish v hvp, char_toNat_ofNat _ hvm]
  -- reduce the step on `s` to the coordinate check, by cases on the pretty form
  obtain ⟨sk, d, sm, br, ⟨pre, ⟨cpre, cell, cpst⟩, pst⟩⟩ := s
  obtain rfl : sm = false := hsm
  obtain rfl : br = false := hbr
  obtain rfl : cell = .ch 'p' := hcell
  obtain rfl : sk = ⟨.pos, y⟩ :: ⟨.pos, x⟩ :: v :: rest := hstk
  obtain rfl : d = .right := hdir
  by_cases hvn : v.sgn = .neg
  · exact hstep (.num v) (fun _ => Or.inl rfl)
      (by simp [befunge_step, Sgn.posish, code_to_char_pretty, hvn,
        show (('p' : Char) = backquoteChar) = False by decide,
        show (('p' : Char) = quoteChar) = False by decide])
  · have hvp : v.sgn.posish = true := by
      rcases hp : v.sgn.posish
      · exact absurd ((posish_false_iff _).mp hp) hvn
      · rfl
    by_cases hvm : v.mag < 256
    · exact hstep (.ch (Char.ofNat v.mag))
        (fun _ => Or.inr ⟨hvp, hvm, rfl⟩)
        (by simp [befunge_step, Sgn.posish, code_to_char_pretty, hvn, hvm,
          show (('p' : Char) = backquoteChar) = False by decide,
          show (('p' : Char) = quoteChar) = False by decide])
    · exact hstep (.num v) (fun _ => Or.inl rfl)
        (by simp [befunge_step, Sgn.posish, code_to_char_pretty, hvn, hvm,
          show (('p' : Char) = backquoteChar) = False by decide,
          show (('p' : Char) = quoteChar) = False by decide])

/-- Claim C7, witnessed at `(x, y) = (1, 0)` and `v = -3`. -/
theorem C7_put_get_roundtrip_witness :
    (1 : Nat) ≤ 79 ∧
    (∃ s₁, befunge_step env0 c7PutState = .next s₁ [] ∧
      ∀ t : BefState, t.stringmode = false → t.bridge = false →
        t.prog.row.cell = .ch 'g' →
        t.stack = ⟨.pos, 0⟩ :: ⟨.pos, 1⟩ :: [] →
        t.dir = .right → t.prog.row.cpst ≠ [] →
        t.prog.rows = s₁.prog.rows →
        ∃ t₁ w, befunge_step env0 t = .next t₁ [] ∧
          t₁.stack = w :: [] ∧ w.toInt = (SMNum.mk .neg 3).toInt) :=
  ⟨by decide,
    C7_put_get_roundtrip env0 env0 1 0 ⟨.neg, 3⟩ [] [] c7PutState
      (by decide) (by decide) rfl rfl rfl rfl rfl (by decide) (by decide)
      (by decide)⟩

end Befunge
